import Mathlib

/-!
# Verification of the KiCad outline-reconstruction engine

A shallow embedding of `pcbnew/convert_drawsegment_list_to_polygon.cpp`:
the proximity helpers (`close_ness`, `close_enough`, `close_st`), the
nearest-endpoint search (`findPoint`), the chain walker, the hole loop, the
post-validation pairwise segment scan of `ConvertOutlineToPolygon`, and the
bounding-box fallback of `BuildBoardPolygonOutlines`.

Coordinates are exact integers (`wxPoint` holds machine ints; where the C++
could overflow we state the machine-int domain as a hypothesis).  External
collaborators that are not part of this translation unit — arc flattening
(`GetArcToSegmentCount` + `RotatePoint`, floating point), module-orientation
rotation, `TransformCircleToPolygon`, and `SEG::Intersect` — are passed in as
an explicit record of oracle functions (`Externals`); a concrete standard
instantiation `extStd` is provided for evaluating the model on test inputs.
-/

/-- A 2D integer point (`wxPoint`). -/
structure Pt where
  x : Int
  y : Int
deriving DecidableEq, Repr

/-- Componentwise addition of points (used for module-offset translation). -/
def Pt.add (a b : Pt) : Pt := ⟨a.x + b.x, a.y + b.y⟩

/-- A footprint (`MODULE`) as consumed by the engine: an orientation (in
decidegrees, kept abstract — the actual rotation is an oracle) and a
position offset. -/
structure PcbModule where
  orientation : Int
  position : Pt
deriving DecidableEq, Repr

/-- The `STROKE_T` shape tag of a `DRAWSEGMENT`. -/
inductive ShapeT
  | segmentS
  | rectS
  | arcS
  | circleS
  | polygonS
  | curveS
deriving DecidableEq, Repr

/-- A `DRAWSEGMENT`, read-only as the engine sees it: the shape tag plus the
shape queries the engine calls.  `bezierPts` is the flattened curve point
list (`GetBezierPoints` after `RebuildBezierToSegmentsPointsList`);
`polyPts0` is contour 0 of `GetPolyShape` (`CIterate(0)`), `polyPtsAll` every
contour's points (`CIterate()`), both before parent placement is applied. -/
structure DSeg where
  shape : ShapeT
  startP : Pt
  endP : Pt
  arcStart : Pt
  arcEnd : Pt
  center : Pt
  radius : Int
  position : Pt
  rectCorners : List Pt
  bezierPts : List Pt
  polyPts0 : List Pt
  polyPtsAll : List Pt
  parentModule : Option PcbModule
deriving DecidableEq, Repr

/-- A default `DRAWSEGMENT` value (used only as a `getD` fallback at indices
that are provably in range). -/
def dsegDefault : DSeg :=
  ⟨.segmentS, ⟨0, 0⟩, ⟨0, 0⟩, ⟨0, 0⟩, ⟨0, 0⟩, ⟨0, 0⟩, 0, ⟨0, 0⟩, [], [], [], [], none⟩

/-- Build a plain straight segment between two points. -/
def mkSeg (a b : Pt) : DSeg :=
  ⟨.segmentS, a, b, ⟨0, 0⟩, ⟨0, 0⟩, ⟨0, 0⟩, 0, a, [], [], [], [], none⟩

/-- Modelled from the spec: the external collaborators of the engine, kept as
oracle functions because their values come from floating-point helpers
outside this translation unit.  `arcScanPts g tol` are the sample points the
leftmost-point scan rotates along an arc; `arcWalkPts g tol rev` the points
the chain walk emits for an arc (`rev` = the traversal was reversed because
the chain arrived at the arc's end); `circleOutlinePts`/`circleHolePts` the
rings `TransformCircleToPolygon` and the hole loop produce for a circle;
`rotOri ori p` is `RotatePoint` of `p` about the origin by a module
orientation; `segInt` is `SEG::Intersect(·, aIgnoreEndpoints = true)`. -/
structure Externals where
  arcScanPts : DSeg → Nat → List Pt
  arcWalkPts : DSeg → Nat → Bool → List Pt
  circleOutlinePts : Pt → Int → Nat → List Pt
  circleHolePts : Pt → Int → Nat → List Pt
  rotOri : Int → Pt → Pt
  segInt : Pt × Pt → Pt × Pt → Option Pt

/-- The `INT_MAX` sentinel that seeds the minimum-distance search. -/
def intMaxN : Nat := 2147483647

/-- Function `close_ness`: the Manhattan distance `|dx| + |dy|` between two
points, the engine's non-exact proximity measure. -/
def close_ness (aLeft aRight : Pt) : Nat :=
  (aLeft.x - aRight.x).natAbs + (aLeft.y - aRight.y).natAbs

/-- Function `close_enough`: proximity within a caller-supplied limit. -/
def close_enough (aLeft aRight : Pt) (aLimit : Nat) : Bool :=
  close_ness aLeft aRight ≤ aLimit

/-- Function `close_st`: whether the first point is at least as close to the
reference as the second. -/
def close_st (aReference aFirst aSecond : Pt) : Bool :=
  close_ness aReference aFirst ≤ close_ness aReference aSecond

/-- The two endpoints `findPoint` examines: `GetArcStart`/`GetArcEnd` for an
arc, `GetStart`/`GetEnd` for everything else. -/
def endPts (g : DSeg) : Pt × Pt :=
  match g.shape with
  | .arcS => (g.arcStart, g.arcEnd)
  | _ => (g.startP, g.endP)

/-- The exact-match part of `findPoint`'s single scan: the first list entry
with an endpoint equal to `aPoint` is removed and returned. -/
def findExact (aPoint : Pt) : List DSeg → Option (DSeg × List DSeg)
  | [] => none
  | g :: rest =>
    if aPoint = (endPts g).1 ∨ aPoint = (endPts g).2 then some (g, rest)
    else
      match findExact aPoint rest with
      | some (g2, rest2) => some (g2, g :: rest2)
      | none => none

/-- The minimum-distance tracking of `findPoint`'s scan: both endpoints of
each entry update `(min_d, ndx_min)` in sequence, each on a strict
decrease. -/
def bestScan (aPoint : Pt) : List DSeg → Nat → Nat → Nat → Nat × Nat
  | [], _, min_d, ndx => (min_d, ndx)
  | g :: rest, i, min_d, ndx =>
    let d1 := close_ness aPoint (endPts g).1
    let s1 := if d1 < min_d then (d1, i) else (min_d, ndx)
    let d2 := close_ness aPoint (endPts g).2
    let s2 := if d2 < s1.1 then (d2, i) else s1
    bestScan aPoint rest (i + 1) s2.1 s2.2

/-- Function `findPoint`: search the list for a `DRAWSEGMENT` whose start or
end matches `aPoint` (exact match short-circuits in list order); failing
that, the closest endpoint's owner is taken when its distance is within
`aLimit`.  On success the found element is removed from the returned list;
on failure the result is `none` and the pool is untouched. -/
def findPoint (aPoint : Pt) (aList : List DSeg) (aLimit : Nat) :
    Option (DSeg × List DSeg) :=
  match findExact aPoint aList with
  | some r => some r
  | none =>
    let s := bestScan aPoint aList 0 intMaxN 0
    if s.1 ≤ aLimit then
      match aList.get? s.2 with
      | some g => some (g, aList.eraseIdx s.2)
      | none => none
    else none

/-- Modelled from the spec: a contour of `SHAPE_POLY_SET` — an ordered point
sequence that is implicitly closed unless `SetClosed(false)` marked it
open. -/
structure Chain where
  points : List Pt
  closed : Bool
deriving DecidableEq, Repr

/-- Modelled from the spec: one outer boundary with its holes. -/
structure Outline where
  boundary : Chain
  holes : List Chain
deriving DecidableEq, Repr

/-- Modelled from the spec: the polygon-with-holes output set
(`SHAPE_POLY_SET`). -/
structure PolySet where
  outlines : List Outline
deriving DecidableEq, Repr

/-- Apply `f` to the last element of a list (the "current" outline or hole
of a `SHAPE_POLY_SET`). -/
def updateLast (f : α → α) : List α → List α
  | [] => []
  | [a] => [f a]
  | a :: b :: rest => a :: updateLast f (b :: rest)

/-- Apply `f` to the element at index `i`. -/
def modifyAt (i : Nat) (f : α → α) : List α → List α
  | [] => []
  | a :: rest =>
    match i with
    | 0 => f a :: rest
    | n + 1 => a :: modifyAt n f rest

/-- Modelled from the spec: `SHAPE_POLY_SET::NewOutline` — append a fresh
empty closed outline. -/
def PolySet.newOutline (P : PolySet) : PolySet :=
  ⟨P.outlines ++ [⟨⟨[], true⟩, []⟩]⟩

/-- Modelled from the spec: `SHAPE_POLY_SET::Append(pt)` — append a point to
the last outline's boundary. -/
def PolySet.appendPt (P : PolySet) (p : Pt) : PolySet :=
  ⟨updateLast (fun o => { o with boundary := ⟨o.boundary.points ++ [p], o.boundary.closed⟩ })
    P.outlines⟩

/-- Modelled from the spec: `SHAPE_POLY_SET::NewHole` — append a fresh empty
closed hole to the last outline. -/
def PolySet.newHole (P : PolySet) : PolySet :=
  ⟨updateLast (fun o => { o with holes := o.holes ++ [⟨[], true⟩] }) P.outlines⟩

/-- Modelled from the spec: `SHAPE_POLY_SET::Append(pt, -1, hole)` with
`hole` the newest hole — append a point to the last hole of the last
outline. -/
def PolySet.appendHolePt (P : PolySet) (p : Pt) : PolySet :=
  ⟨updateLast
    (fun o => { o with holes := updateLast (fun c => ⟨c.points ++ [p], c.closed⟩) o.holes })
    P.outlines⟩

/-- Modelled from the spec: `aPolygons.Hole(outIdx, holeIdx).SetClosed(false)`. -/
def PolySet.setHoleOpen (P : PolySet) (outIdx holeIdx : Nat) : PolySet :=
  ⟨modifyAt outIdx
    (fun o => { o with holes := modifyAt holeIdx (fun c => ⟨c.points, false⟩) o.holes })
    P.outlines⟩

/-- Append a run of points to the last outline's boundary. -/
def appendAll (P : PolySet) (pts : List Pt) : PolySet :=
  pts.foldl PolySet.appendPt P

/-- Append a run of points to the last hole of the last outline. -/
def appendAllHole (P : PolySet) (pts : List Pt) : PolySet :=
  pts.foldl PolySet.appendHolePt P

/-- The placement pair `(orientation, offset)` the engine reads from a
parent module (`NULL` parent yields the identity placement). -/
def modulePlacement : Option PcbModule → Int × Pt
  | some m => (m.orientation, m.position)
  | none => (0, ⟨0, 0⟩)

/-- Apply a parent placement to a polygon point: `RotatePoint` by the
orientation (about the origin), then add the offset. -/
def placePolyPt (E : Externals) (m : Option PcbModule) (p : Pt) : Pt :=
  ((E.rotOri (modulePlacement m).1 p).add (modulePlacement m).2)

/-- The candidate points the leftmost-point scan examines for one list
entry.  Note the polygon case: the placement comes from `aSegList[0]`'s
parent module (`head`), not from the polygon being examined. -/
def scanCandidatePts (E : Externals) (head : DSeg) (aTolerance : Nat) (g : DSeg) : List Pt :=
  match g.shape with
  | .rectS => [g.startP, g.endP]
  | .segmentS => [g.startP, g.endP]
  | .arcS => E.arcScanPts g aTolerance
  | .circleS =>
    if g.radius > 0 then [⟨g.center.x - g.radius, g.center.y⟩] else []
  | .curveS => g.bezierPts
  | .polygonS => g.polyPtsAll.map (placePolyPt E head.parentModule)

/-- Fold one entry's candidate points through the `(xmin, xmini)` state:
each point strictly below the current minimum x takes over. -/
def leftmostFold (i : Nat) : List Pt → Pt × Nat → Pt × Nat
  | [], st => st
  | p :: rest, (xmin, xmini) =>
    leftmostFold i rest (if p.x < xmin.x then (p, i) else (xmin, xmini))

/-- The scan loop over the working list. -/
def leftmostLoop (E : Externals) (head : DSeg) (aTolerance : Nat) :
    List DSeg → Nat → Pt × Nat → Pt × Nat
  | [], _, st => st
  | g :: rest, i, st =>
    leftmostLoop E head aTolerance rest (i + 1)
      (leftmostFold i (scanCandidatePts E head aTolerance g) st)

/-- The index `xmini` of the entry owning the point with minimum x
(`xmin` starts at `(INT_MAX, 0)`, `xmini` at 0). -/
def leftmostIndex (E : Externals) (aTolerance : Nat) (segs : List DSeg) : Nat :=
  match segs with
  | [] => 0
  | h :: _ => (leftmostLoop E h aTolerance segs 0 (⟨(2147483647 : Int), 0⟩, 0)).2

/-- The starting primitive (grabbed at `xmini`) and the working list with it
removed. -/
def outerPick (E : Externals) (aTolerance : Nat) (segs : List DSeg) : DSeg × List DSeg :=
  let i := leftmostIndex E aTolerance segs
  (segs.getD i dsegDefault, segs.eraseIdx i)

/-- The chain's arbitrarily chosen start point: the arc end for an arc,
`GetEnd` otherwise. -/
def outerStartPt (E : Externals) (aTolerance : Nat) (segs : List DSeg) : Pt :=
  let g := (outerPick E aTolerance segs).1
  if g.shape = .arcS then g.arcEnd else g.endP

/-- One chain-walk step: consume the current primitive's shape, returning
the emitted points and the advanced `prevPt`; `none` means an unsupported
shape was met inside the chain (rect, circle or polygon mid-walk). -/
def walkStep (E : Externals) (aTolerance : Nat) (g : DSeg) (prevPt : Pt) :
    Option (List Pt × Pt) :=
  match g.shape with
  | .segmentS =>
    let nextPt := if close_st prevPt g.startP g.endP then g.endP else g.startP
    some ([nextPt], nextPt)
  | .arcS =>
    let rev := !close_enough prevPt g.arcStart aTolerance
    let pts := E.arcWalkPts g aTolerance rev
    some (pts, pts.getLast?.getD prevPt)
  | .curveS =>
    let fwd := close_st prevPt g.startP g.endP
    let nextPt := if fwd then g.endP else g.startP
    some ((if fwd then g.bezierPts else g.bezierPts.reverse), nextPt)
  | _ => none

/-- How a chain walk ended. -/
inductive WalkExit
  | closed
  | unclosed (p : Pt)
  | unsupported (pos : Pt)
  | fuelOut
deriving DecidableEq, Repr

/-- A finished chain walk: the points appended in order, the remaining
working list, and the exit condition. -/
structure WalkRes where
  pts : List Pt
  pool : List DSeg
  wexit : WalkExit
deriving DecidableEq, Repr

/-- The chain-walk loop shared by the outer boundary and the holes: emit the
current primitive, then `findPoint` the next one; when the pool yields no
candidate the chain closes if `prevPt` is close enough to `startPt`,
otherwise it is left open at `prevPt`.  `fuel` bounds the iterations; each
successful `findPoint` removes one pool element, so `pool.length + 1` fuel
always suffices (proved below). -/
def walkChain (E : Externals) (aTolerance : Nat) (startPt : Pt) :
    Nat → DSeg → Pt → List Pt → List DSeg → WalkRes
  | 0, _, _, acc, pool => ⟨acc, pool, .fuelOut⟩
  | fuel + 1, g, prevPt, acc, pool =>
    match walkStep E aTolerance g prevPt with
    | none => ⟨acc, pool, .unsupported g.position⟩
    | some (em, prev2) =>
      match findPoint prev2 pool aTolerance with
      | none =>
        if close_enough startPt prev2 aTolerance then ⟨acc ++ em, pool, .closed⟩
        else ⟨acc ++ em, pool, .unclosed prev2⟩
      | some (g2, pool2) => walkChain E aTolerance startPt fuel g2 prev2 (acc ++ em) pool2

/-- The outer-boundary chain walk, seeded from the leftmost primitive. -/
def outerWalk (E : Externals) (aTolerance : Nat) (segs : List DSeg) : WalkRes :=
  let pick := outerPick E aTolerance segs
  walkChain E aTolerance (outerStartPt E aTolerance segs)
    (pick.2.length + 1) pick.1 (outerStartPt E aTolerance segs) [] pick.2

/-- The polygon set after the outer walk: a fresh outline holding the start
point followed by the walk's emitted points. -/
def outerPoly (E : Externals) (aTolerance : Nat) (segs : List DSeg) (P0 : PolySet) : PolySet :=
  appendAll (P0.newOutline.appendPt (outerStartPt E aTolerance segs))
    (outerWalk E aTolerance segs).pts

/-- A polygon's emitted points (outline or hole fast path): its own parent
module's placement applied to the given stored contour points. -/
def emitPolyPts (E : Externals) (g : DSeg) (pts : List Pt) : List Pt :=
  pts.map (placePolyPt E g.parentModule)

/-- The chain walk of one hole, seeded from the popped primitive's
`GetEnd`. -/
def holeWalk (E : Externals) (aTolerance : Nat) (g : DSeg) (rest : List DSeg) : WalkRes :=
  walkChain E aTolerance g.endP (rest.length + 1) g g.endP [] rest

/-- The polygon set after one hole walk: a fresh hole holding the start
point followed by the walk's emitted points. -/
def holePoly (E : Externals) (aTolerance : Nat) (P : PolySet) (g : DSeg)
    (rest : List DSeg) : PolySet :=
  appendAllHole (P.newHole.appendHolePt g.endP) (holeWalk E aTolerance g rest).pts

/-- How the hole loop ended. -/
inductive HolesExit
  | done
  | abortedUnsupported
  | fuelOut
deriving DecidableEq, Repr

/-- The hole loop's outcome: the polygon set, the running
`polygonComplete` flag, the last error location written, and the exit. -/
structure HolesRes where
  poly : PolySet
  complete : Bool
  errLoc : Option Pt
  hexit : HolesExit
deriving DecidableEq, Repr

/-- The hole loop: while the working list is non-empty, open a new hole,
pop the front primitive, and emit it — polygons, circles and rectangles as
closed fast paths, everything else through the chain walk.  A walk that
cannot close marks its hole open (`Hole(0, holeNum).SetClosed(false)`),
clears the completeness flag, records the unmatched point, and the loop
continues; an unsupported shape mid-walk aborts the whole conversion. -/
def holesLoop (E : Externals) (aTolerance : Nat) :
    Nat → List DSeg → PolySet → Bool → Option Pt → Nat → HolesRes
  | _, [], P, comp, eLoc, _ => ⟨P, comp, eLoc, .done⟩
  | 0, _ :: _, P, comp, eLoc, _ => ⟨P, comp, eLoc, .fuelOut⟩
  | fuel + 1, g :: rest, P, comp, eLoc, holeNum =>
    match g.shape with
    | .polygonS =>
      holesLoop E aTolerance fuel rest
        (appendAllHole P.newHole (emitPolyPts E g g.polyPtsAll)) comp eLoc (holeNum + 1)
    | .circleS =>
      holesLoop E aTolerance fuel rest
        (appendAllHole P.newHole (E.circleHolePts g.center g.radius aTolerance))
        comp eLoc (holeNum + 1)
    | .rectS =>
      holesLoop E aTolerance fuel rest
        (appendAllHole P.newHole g.rectCorners) comp eLoc (holeNum + 1)
    | _ =>
      let w := holeWalk E aTolerance g rest
      let P3 := holePoly E aTolerance P g rest
      match w.wexit with
      | .closed => holesLoop E aTolerance fuel w.pool P3 comp eLoc (holeNum + 1)
      | .unclosed p =>
        holesLoop E aTolerance fuel w.pool (P3.setHoleOpen 0 holeNum) false (some p)
          (holeNum + 1)
      | .unsupported pos => ⟨P3, comp, some pos, .abortedUnsupported⟩
      | .fuelOut => ⟨P3, comp, eLoc, .fuelOut⟩

/-- A segment-pair offence found by the post-validation scan. -/
inductive Violation
  | dup (a b : Pt × Pt)
  | cross (p : Pt)
deriving DecidableEq, Repr

/-- Check one ordered segment pair: exact duplicates and exact
reverse-duplicates first (not viewed as an intersection), then the
intersection oracle. -/
def pairCheck (E : Externals) (a b : Pt × Pt) : Option Violation :=
  if a = b ∨ (a.1 = b.2 ∧ a.2 = b.1) then some (.dup a b)
  else
    match E.segInt a b with
    | some p => some (.cross p)
    | none => none

/-- Scan `a` against every later segment. -/
def firstHit (E : Externals) (a : Pt × Pt) : List (Pt × Pt) → Option Violation
  | [] => none
  | b :: rest =>
    match pairCheck E a b with
    | some v => some v
    | none => firstHit E a rest

/-- The pairwise scan over all segments, in iteration order. -/
def firstViolation (E : Externals) : List (Pt × Pt) → Option Violation
  | [] => none
  | a :: rest =>
    match firstHit E a rest with
    | some v => some v
    | none => firstViolation E rest

/-- Modelled from the spec: the segments of one contour after implicit
closure — consecutive point pairs, plus the wrap-around segment when the
contour is closed (`IterateSegmentsWithHoles` omits it for an open one). -/
def chainSegsOf (c : Chain) : List (Pt × Pt) :=
  match c.points with
  | [] => []
  | [_] => []
  | p :: q :: rest =>
    (p :: q :: rest).zip (q :: rest) ++
      (if c.closed then [((q :: rest).getLast (by simp), p)] else [])

/-- All segments of an outline: its boundary then its holes. -/
def outlineSegs (o : Outline) : List (Pt × Pt) :=
  chainSegsOf o.boundary ++ (o.holes.map chainSegsOf).flatten

/-- All segments of the polygon set, in iteration order. -/
def allSegs (P : PolySet) : List (Pt × Pt) :=
  (P.outlines.map outlineSegs).flatten

/-- Where `ConvertOutlineToPolygon` stands after chaining, before the
post-validation scan. -/
inductive PreOut
  | early (ret : Bool) (poly : PolySet) (errLoc : Option Pt)
  | ready (poly : PolySet) (complete : Bool) (errLoc : Option Pt)
  | outOfFuel
deriving DecidableEq, Repr

/-- Run the hole loop on what remains of the working list and package its
exit. -/
def finishHoles (E : Externals) (aTolerance : Nat) (pool : List DSeg) (P : PolySet)
    (comp : Bool) (eLoc : Option Pt) : PreOut :=
  let h := holesLoop E aTolerance pool.length pool P comp eLoc 0
  match h.hexit with
  | .done => .ready h.poly h.complete h.errLoc
  | .abortedUnsupported => .early false h.poly h.errLoc
  | .fuelOut => .outOfFuel

/-- The chaining phases of `ConvertOutlineToPolygon`: empty input returns
true immediately; otherwise the leftmost primitive seeds the outer
boundary (closed shapes directly, open shapes through the chain walk, whose
unsupported-shape exit aborts and whose unclosed exit clears the
completeness flag and records the unmatched point), then the hole loop
drains the rest of the working list. -/
def convertPre (E : Externals) (aTolerance : Nat) (segs : List DSeg) (P0 : PolySet) :
    PreOut :=
  if segs.isEmpty then .early true P0 none
  else
    let g := (outerPick E aTolerance segs).1
    let pool0 := (outerPick E aTolerance segs).2
    match g.shape with
    | .circleS =>
      finishHoles E aTolerance pool0
        (appendAll P0.newOutline (E.circleOutlinePts g.center g.radius aTolerance)) true none
    | .rectS =>
      finishHoles E aTolerance pool0 (appendAll P0.newOutline g.rectCorners) true none
    | .polygonS =>
      finishHoles E aTolerance pool0
        (appendAll P0.newOutline (emitPolyPts E g g.polyPts0)) true none
    | _ =>
      let w := outerWalk E aTolerance segs
      let P2 := outerPoly E aTolerance segs P0
      match w.wexit with
      | .unsupported pos => .early false P2 (some pos)
      | .fuelOut => .outOfFuel
      | .closed => finishHoles E aTolerance w.pool P2 true none
      | .unclosed p => finishHoles E aTolerance w.pool P2 false (some p)

/-- The conversion result: the returned flag, the polygon set and the last
error location written. -/
structure ConvRes where
  ret : Bool
  poly : PolySet
  errLoc : Option Pt
deriving DecidableEq, Repr

/-- Function `ConvertOutlineToPolygon`: chain the working list into an outer
boundary plus holes, then run the pairwise duplicate/intersection scan —
a duplicate pair fails at the first segment's A point, a crossing at the
intersection point, and otherwise the accumulated `polygonComplete` flag is
returned. -/
def ConvertOutlineToPolygon (E : Externals) (aTolerance : Nat) (segs : List DSeg)
    (P0 : PolySet) : ConvRes :=
  match convertPre E aTolerance segs P0 with
  | .early ret P eLoc => ⟨ret, P, eLoc⟩
  | .outOfFuel => ⟨false, P0, none⟩
  | .ready P comp eLoc =>
    match firstViolation E (allSegs P) with
    | some (.dup a _) => ⟨false, P, some a.1⟩
    | some (.cross p) => ⟨false, P, some p⟩
    | none => ⟨comp, P, eLoc⟩

/-- The signed cross product `(a - o) x (b - o)` used by the concrete
intersection test. -/
def crossProd (o a b : Pt) : Int :=
  (a.x - o.x) * (b.y - o.y) - (a.y - o.y) * (b.x - o.x)

/-- Whether two segments properly cross: each straddles the other's line
strictly, which in particular excludes every shared-endpoint contact and
collinear overlap. -/
def properCross (s1 s2 : Pt × Pt) : Bool :=
  let d1 := crossProd s2.1 s2.2 s1.1
  let d2 := crossProd s2.1 s2.2 s1.2
  let d3 := crossProd s1.1 s1.2 s2.1
  let d4 := crossProd s1.1 s1.2 s2.2
  (decide (0 < d1) && decide (d2 < 0) || decide (d1 < 0) && decide (0 < d2)) &&
    (decide (0 < d3) && decide (d4 < 0) || decide (d3 < 0) && decide (0 < d4))

/-- Modelled from the spec: `SEG::Intersect(·, aIgnoreEndpoints = true)` —
a true geometric crossing (shared endpoints excluded) reported at the
(rounded) intersection point. -/
def segIntersectSpec (s1 s2 : Pt × Pt) : Option Pt :=
  if properCross s1 s2 then
    let rx := s1.2.x - s1.1.x
    let ry := s1.2.y - s1.1.y
    let sx := s2.2.x - s2.1.x
    let sy := s2.2.y - s2.1.y
    let den := rx * sy - ry * sx
    let num := (s2.1.x - s1.1.x) * sy - (s2.1.y - s1.1.y) * sx
    some ⟨s1.1.x + num * rx / den, s1.1.y + num * ry / den⟩
  else none

/-- A concrete instantiation of the external collaborators, used to evaluate
the model on test inputs: stand-in arc/circle flattenings (our test inputs
contain only straight segments, polygons and untouched placements), the
identity stand-in for orientation rotation, and the concrete intersection
test above. -/
def extStd : Externals where
  arcScanPts g _ := [g.arcEnd]
  arcWalkPts g _ rev := if rev then [g.arcStart] else [g.arcEnd]
  circleOutlinePts c r _ :=
    [⟨c.x + r, c.y⟩, ⟨c.x, c.y + r⟩, ⟨c.x - r, c.y⟩, ⟨c.x, c.y - r⟩]
  circleHolePts c r _ :=
    [⟨c.x + r, c.y⟩, ⟨c.x, c.y + r⟩, ⟨c.x - r, c.y⟩, ⟨c.x, c.y - r⟩]
  rotOri _ p := p
  segInt := segIntersectSpec

/-- Modelled from the spec: an `EDA_RECT` — an origin corner and a size. -/
structure Rect where
  origin : Pt
  size : Pt
deriving DecidableEq, Repr

/-- The rectangle's far corner (`GetEnd` = origin + size). -/
def Rect.getEnd (r : Rect) : Pt := ⟨r.origin.x + r.size.x, r.origin.y + r.size.y⟩

/-- Modelled from the spec: `EDA_RECT::Inflate` — grow the rectangle by `d`
on every side. -/
def Rect.inflate (r : Rect) (d : Int) : Rect :=
  ⟨⟨r.origin.x - d, r.origin.y - d⟩, ⟨r.size.x + 2 * d, r.size.y + 2 * d⟩⟩

/-- Modelled from the spec: `Millimeter2iu(1.0)`, the minimum fallback
margin (1 mm in internal units). -/
def millimeter2iu : Int := 1000000

/-- A `BOARD` as `BuildBoardPolygonOutlines` consumes it: the collected
`Edge_Cuts` graphics and the two bounding-box queries. -/
structure Board where
  edgeSegs : List DSeg
  edgesBBox : Rect
  computedBBox : Rect
deriving Repr

/-- The bounding box the fallback rectangle is built from: the board-edges
box, replaced by the global box when degenerate, inflated by the minimum
margin when still degenerate. -/
def fallbackRect (b : Board) : Rect :=
  let bb := b.edgesBBox
  let bb := if bb.size.x = 0 ∨ bb.size.y = 0 then b.computedBBox else bb
  if bb.size.x = 0 ∨ bb.size.y = 0 then bb.inflate millimeter2iu else bb

/-- The substituted boundary: one 4-corner outline around `fallbackRect`,
with no holes. -/
def fallbackPoly (b : Board) : PolySet :=
  let bb := fallbackRect b
  ⟨[⟨⟨[bb.origin, ⟨bb.origin.x, bb.getEnd.y⟩, bb.getEnd, ⟨bb.getEnd.x, bb.origin.y⟩],
      true⟩, []⟩]⟩

/-- The state before the fallback check: the success flag (false when no
edge graphics exist) and the polygon set the conversion produced. -/
def boardPre (E : Externals) (aTolerance : Nat) (b : Board) (P0 : PolySet) :
    Bool × PolySet :=
  match b.edgeSegs with
  | [] => (false, P0)
  | _ :: _ =>
    let r := ConvertOutlineToPolygon E aTolerance b.edgeSegs P0
    (r.ret, r.poly)

/-- Function `BuildBoardPolygonOutlines`: convert the `Edge_Cuts` graphics,
and when that fails or yields no outline, replace the output with the
4-corner bounding-box rectangle. -/
def BuildBoardPolygonOutlines (E : Externals) (aTolerance : Nat) (b : Board)
    (P0 : PolySet) : Bool × PolySet :=
  let pre := boardPre E aTolerance b P0
  if pre.1 = false ∨ pre.2.outlines.length = 0 then (pre.1, fallbackPoly b)
  else pre

/-! ## Unfolding equations for the fuel-indexed loops -/

lemma walkChain_succ (E : Externals) (tol : Nat) (sp : Pt) (fuel : Nat) (g : DSeg)
    (prev : Pt) (acc : List Pt) (pool : List DSeg) :
    walkChain E tol sp (fuel + 1) g prev acc pool =
      match walkStep E tol g prev with
      | none => ⟨acc, pool, .unsupported g.position⟩
      | some (em, prev2) =>
        match findPoint prev2 pool tol with
        | none =>
          if close_enough sp prev2 tol then ⟨acc ++ em, pool, .closed⟩
          else ⟨acc ++ em, pool, .unclosed prev2⟩
        | some (g2, pool2) => walkChain E tol sp fuel g2 prev2 (acc ++ em) pool2 := rfl

lemma holesLoop_cons (E : Externals) (tol : Nat) (fuel : Nat) (g : DSeg)
    (rest : List DSeg) (P : PolySet) (comp : Bool) (eLoc : Option Pt) (holeNum : Nat) :
    holesLoop E tol (fuel + 1) (g :: rest) P comp eLoc holeNum =
      match g.shape with
      | .polygonS =>
        holesLoop E tol fuel rest
          (appendAllHole P.newHole (emitPolyPts E g g.polyPtsAll)) comp eLoc (holeNum + 1)
      | .circleS =>
        holesLoop E tol fuel rest
          (appendAllHole P.newHole (E.circleHolePts g.center g.radius tol))
          comp eLoc (holeNum + 1)
      | .rectS =>
        holesLoop E tol fuel rest
          (appendAllHole P.newHole g.rectCorners) comp eLoc (holeNum + 1)
      | _ =>
        match (holeWalk E tol g rest).wexit with
        | .closed =>
          holesLoop E tol fuel (holeWalk E tol g rest).pool (holePoly E tol P g rest)
            comp eLoc (holeNum + 1)
        | .unclosed p =>
          holesLoop E tol fuel (holeWalk E tol g rest).pool
            ((holePoly E tol P g rest).setHoleOpen 0 holeNum) false (some p) (holeNum + 1)
        | .unsupported pos => ⟨holePoly E tol P g rest, comp, some pos, .abortedUnsupported⟩
        | .fuelOut => ⟨holePoly E tol P g rest, comp, eLoc, .fuelOut⟩ := rfl

lemma finishHoles_eq (E : Externals) (tol : Nat) (pool : List DSeg) (P : PolySet)
    (comp : Bool) (eLoc : Option Pt) :
    finishHoles E tol pool P comp eLoc =
      match (holesLoop E tol pool.length pool P comp eLoc 0).hexit with
      | .done =>
        .ready (holesLoop E tol pool.length pool P comp eLoc 0).poly
          (holesLoop E tol pool.length pool P comp eLoc 0).complete
          (holesLoop E tol pool.length pool P comp eLoc 0).errLoc
      | .abortedUnsupported =>
        .early false (holesLoop E tol pool.length pool P comp eLoc 0).poly
          (holesLoop E tol pool.length pool P comp eLoc 0).errLoc
      | .fuelOut => .outOfFuel := rfl

lemma convertPre_cons (E : Externals) (tol : Nat) (s0 : DSeg) (r0 : List DSeg)
    (P0 : PolySet) :
    convertPre E tol (s0 :: r0) P0 =
      match (outerPick E tol (s0 :: r0)).1.shape with
      | .circleS =>
        finishHoles E tol (outerPick E tol (s0 :: r0)).2
          (appendAll P0.newOutline
            (E.circleOutlinePts (outerPick E tol (s0 :: r0)).1.center
              (outerPick E tol (s0 :: r0)).1.radius tol)) true none
      | .rectS =>
        finishHoles E tol (outerPick E tol (s0 :: r0)).2
          (appendAll P0.newOutline (outerPick E tol (s0 :: r0)).1.rectCorners) true none
      | .polygonS =>
        finishHoles E tol (outerPick E tol (s0 :: r0)).2
          (appendAll P0.newOutline
            (emitPolyPts E (outerPick E tol (s0 :: r0)).1
              (outerPick E tol (s0 :: r0)).1.polyPts0)) true none
      | _ =>
        match (outerWalk E tol (s0 :: r0)).wexit with
        | .unsupported pos => .early false (outerPoly E tol (s0 :: r0) P0) (some pos)
        | .fuelOut => .outOfFuel
        | .closed =>
          finishHoles E tol (outerWalk E tol (s0 :: r0)).pool
            (outerPoly E tol (s0 :: r0) P0) true none
        | .unclosed p =>
          finishHoles E tol (outerWalk E tol (s0 :: r0)).pool
            (outerPoly E tol (s0 :: r0) P0) false (some p) := rfl

/-! ## Termination of the chaining loops -/

lemma findExact_length (p : Pt) :
    ∀ (l : List DSeg) (g : DSeg) (l' : List DSeg),
      findExact p l = some (g, l') → l'.length + 1 = l.length := by
  intro l
  induction l with
  | nil => intro g l' h; simp [findExact] at h
  | cons a rest ih =>
    intro g l' h
    by_cases hc : p = (endPts a).1 ∨ p = (endPts a).2
    · rw [findExact, if_pos hc] at h
      injection h with h2
      injection h2 with hg hl
      rw [← hl]
      simp
    · rw [findExact, if_neg hc] at h
      cases hr : findExact p rest with
      | none => rw [hr] at h; exact absurd h (by simp)
      | some pr =>
        obtain ⟨g2, rest2⟩ := pr
        rw [hr] at h
        injection h with h2
        injection h2 with hg hl
        rw [← hl]
        have := ih g2 rest2 hr
        simp [← this]

lemma findPoint_length (p : Pt) (l : List DSeg) (lim : Nat) (g : DSeg) (l' : List DSeg)
    (h : findPoint p l lim = some (g, l')) : l'.length + 1 = l.length := by
  unfold findPoint at h
  cases he : findExact p l with
  | some r =>
    rw [he] at h
    obtain ⟨g0, l0⟩ := r
    injection h with h2
    injection h2 with hg hl
    rw [← hl]
    exact findExact_length p l g0 l0 he
  | none =>
    rw [he] at h
    simp only at h
    split at h
    · cases hg : l.get? (bestScan p l 0 intMaxN 0).2 with
      | none => rw [hg] at h; exact absurd h (by simp)
      | some g0 =>
        rw [hg] at h
        injection h with h2
        injection h2 with hgg hl
        rw [← hl]
        have hlt : (bestScan p l 0 intMaxN 0).2 < l.length := by
          by_contra hge
          rw [List.get?_eq_none.2 (Nat.le_of_not_lt hge)] at hg
          exact absurd hg (by simp)
        rw [List.length_eraseIdx, if_pos hlt]
        omega
    · exact absurd h (by simp)

lemma walkChain_pool_length (E : Externals) (tol : Nat) (sp : Pt) :
    ∀ (fuel : Nat) (g : DSeg) (prev : Pt) (acc : List Pt) (pool : List DSeg),
      (walkChain E tol sp fuel g prev acc pool).pool.length ≤ pool.length := by
  intro fuel
  induction fuel with
  | zero => intro g prev acc pool; simp [walkChain]
  | succ n ih =>
    intro g prev acc pool
    rw [walkChain_succ]
    cases hws : walkStep E tol g prev with
    | none => simp
    | some em =>
      obtain ⟨pts, prev2⟩ := em
      simp only
      cases hfp : findPoint prev2 pool tol with
      | none => dsimp only; split <;> simp
      | some r =>
        obtain ⟨g2, pool2⟩ := r
        simp only
        have h1 := findPoint_length prev2 pool tol g2 pool2 hfp
        have h2 := ih g2 prev2 (acc ++ pts) pool2
        omega

lemma walkChain_no_fuelOut (E : Externals) (tol : Nat) (sp : Pt) :
    ∀ (fuel : Nat) (g : DSeg) (prev : Pt) (acc : List Pt) (pool : List DSeg),
      pool.length < fuel → (walkChain E tol sp fuel g prev acc pool).wexit ≠ .fuelOut := by
  intro fuel
  induction fuel with
  | zero => intro g prev acc pool h; omega
  | succ n ih =>
    intro g prev acc pool h
    rw [walkChain_succ]
    cases hws : walkStep E tol g prev with
    | none => simp
    | some em =>
      obtain ⟨pts, prev2⟩ := em
      simp only
      cases hfp : findPoint prev2 pool tol with
      | none => dsimp only; split <;> simp
      | some r =>
        obtain ⟨g2, pool2⟩ := r
        simp only
        have h1 := findPoint_length prev2 pool tol g2 pool2 hfp
        exact ih g2 prev2 (acc ++ pts) pool2 (by omega)

lemma holeWalk_no_fuelOut (E : Externals) (tol : Nat) (g : DSeg) (rest : List DSeg) :
    (holeWalk E tol g rest).wexit ≠ .fuelOut :=
  walkChain_no_fuelOut E tol g.endP (rest.length + 1) g g.endP [] rest (by omega)

lemma holeWalk_pool_length (E : Externals) (tol : Nat) (g : DSeg) (rest : List DSeg) :
    (holeWalk E tol g rest).pool.length ≤ rest.length :=
  walkChain_pool_length E tol g.endP (rest.length + 1) g g.endP [] rest

lemma holesLoop_no_fuelOut (E : Externals) (tol : Nat) :
    ∀ (fuel : Nat) (pool : List DSeg) (P : PolySet) (comp : Bool) (eLoc : Option Pt)
      (n : Nat), pool.length ≤ fuel →
        (holesLoop E tol fuel pool P comp eLoc n).hexit ≠ .fuelOut := by
  intro fuel
  induction fuel with
  | zero =>
    intro pool P comp eLoc n h
    cases pool with
    | nil => simp [holesLoop]
    | cons a rest => simp at h
  | succ m ih =>
    intro pool P comp eLoc n h
    cases pool with
    | nil => simp [holesLoop]
    | cons g rest =>
      have hr : rest.length ≤ m := by simpa using h
      rw [holesLoop_cons]
      cases hs : g.shape with
      | polygonS => exact ih rest _ comp eLoc (n + 1) hr
      | circleS => exact ih rest _ comp eLoc (n + 1) hr
      | rectS => exact ih rest _ comp eLoc (n + 1) hr
      | segmentS =>
        dsimp only
        cases hw : (holeWalk E tol g rest).wexit with
        | closed =>
          exact ih _ _ comp eLoc (n + 1) (le_trans (holeWalk_pool_length E tol g rest) hr)
        | unclosed p =>
          exact ih _ _ false (some p) (n + 1)
            (le_trans (holeWalk_pool_length E tol g rest) hr)
        | unsupported pos => simp
        | fuelOut => exact absurd hw (holeWalk_no_fuelOut E tol g rest)
      | arcS =>
        dsimp only
        cases hw : (holeWalk E tol g rest).wexit with
        | closed =>
          exact ih _ _ comp eLoc (n + 1) (le_trans (holeWalk_pool_length E tol g rest) hr)
        | unclosed p =>
          exact ih _ _ false (some p) (n + 1)
            (le_trans (holeWalk_pool_length E tol g rest) hr)
        | unsupported pos => simp
        | fuelOut => exact absurd hw (holeWalk_no_fuelOut E tol g rest)
      | curveS =>
        dsimp only
        cases hw : (holeWalk E tol g rest).wexit with
        | closed =>
          exact ih _ _ comp eLoc (n + 1) (le_trans (holeWalk_pool_length E tol g rest) hr)
        | unclosed p =>
          exact ih _ _ false (some p) (n + 1)
            (le_trans (holeWalk_pool_length E tol g rest) hr)
        | unsupported pos => simp
        | fuelOut => exact absurd hw (holeWalk_no_fuelOut E tol g rest)

lemma finishHoles_ne_outOfFuel (E : Externals) (tol : Nat) (pool : List DSeg)
    (P : PolySet) (comp : Bool) (eLoc : Option Pt) :
    finishHoles E tol pool P comp eLoc ≠ .outOfFuel := by
  rw [finishHoles_eq]
  cases hh : (holesLoop E tol pool.length pool P comp eLoc 0).hexit with
  | done => simp
  | abortedUnsupported => simp
  | fuelOut =>
    exact absurd hh (holesLoop_no_fuelOut E tol pool.length pool P comp eLoc 0 le_rfl)

lemma outerWalk_no_fuelOut (E : Externals) (tol : Nat) (segs : List DSeg) :
    (outerWalk E tol segs).wexit ≠ .fuelOut := by
  unfold outerWalk
  exact walkChain_no_fuelOut E tol _ _ _ _ _ _ (by omega)

lemma convertPre_ne_outOfFuel (E : Externals) (tol : Nat) (segs : List DSeg)
    (P0 : PolySet) : convertPre E tol segs P0 ≠ .outOfFuel := by
  cases segs with
  | nil => simp [convertPre]
  | cons s0 r0 =>
    rw [convertPre_cons]
    cases hs : (outerPick E tol (s0 :: r0)).1.shape with
    | circleS => exact finishHoles_ne_outOfFuel E tol _ _ _ _
    | rectS => exact finishHoles_ne_outOfFuel E tol _ _ _ _
    | polygonS => exact finishHoles_ne_outOfFuel E tol _ _ _ _
    | segmentS =>
      dsimp only
      cases hw : (outerWalk E tol (s0 :: r0)).wexit with
      | unsupported pos => simp
      | fuelOut => exact absurd hw (outerWalk_no_fuelOut E tol (s0 :: r0))
      | closed => exact finishHoles_ne_outOfFuel E tol _ _ _ _
      | unclosed p => exact finishHoles_ne_outOfFuel E tol _ _ _ _
    | arcS =>
      dsimp only
      cases hw : (outerWalk E tol (s0 :: r0)).wexit with
      | unsupported pos => simp
      | fuelOut => exact absurd hw (outerWalk_no_fuelOut E tol (s0 :: r0))
      | closed => exact finishHoles_ne_outOfFuel E tol _ _ _ _
      | unclosed p => exact finishHoles_ne_outOfFuel E tol _ _ _ _
    | curveS =>
      dsimp only
      cases hw : (outerWalk E tol (s0 :: r0)).wexit with
      | unsupported pos => simp
      | fuelOut => exact absurd hw (outerWalk_no_fuelOut E tol (s0 :: r0))
      | closed => exact finishHoles_ne_outOfFuel E tol _ _ _ _
      | unclosed p => exact finishHoles_ne_outOfFuel E tol _ _ _ _

/-- Claim C8: `ConvertOutlineToPolygon` terminates on every finite input —
each successful `findPoint` removes exactly one primitive from the working
pool, so a chain walk makes at most `pool.length + 1` iterations and the
hole loop at most `pool.length`; with those fuels neither loop ever runs
out, and the conversion never reaches its out-of-fuel marker. -/
theorem c8_termination_bounded_by_pool_size :
    (∀ (p : Pt) (l : List DSeg) (lim : Nat) (g : DSeg) (l' : List DSeg),
        findPoint p l lim = some (g, l') → l'.length + 1 = l.length) ∧
    (∀ (E : Externals) (tol : Nat) (sp : Pt) (fuel : Nat) (g : DSeg) (prev : Pt)
        (acc : List Pt) (pool : List DSeg), pool.length < fuel →
          (walkChain E tol sp fuel g prev acc pool).wexit ≠ .fuelOut) ∧
    (∀ (E : Externals) (tol fuel : Nat) (pool : List DSeg) (P : PolySet) (comp : Bool)
        (eLoc : Option Pt) (n : Nat), pool.length ≤ fuel →
          (holesLoop E tol fuel pool P comp eLoc n).hexit ≠ .fuelOut) ∧
    (∀ (E : Externals) (tol : Nat) (segs : List DSeg) (P0 : PolySet),
        convertPre E tol segs P0 ≠ .outOfFuel) :=
  ⟨findPoint_length,
   fun E tol sp => walkChain_no_fuelOut E tol sp,
   fun E tol fuel => holesLoop_no_fuelOut E tol fuel,
   convertPre_ne_outOfFuel⟩

theorem c8_termination_witness :
    ([] : List DSeg).length + 1 = [mkSeg ⟨0, 0⟩ ⟨1, 0⟩].length ∧
    (walkChain extStd 0 ⟨0, 0⟩ 1 (mkSeg ⟨0, 0⟩ ⟨1, 0⟩) ⟨0, 0⟩ [] []).wexit ≠
      WalkExit.fuelOut ∧
    (holesLoop extStd 0 1 [mkSeg ⟨0, 0⟩ ⟨1, 0⟩] ⟨[]⟩ true none 0).hexit ≠
      HolesExit.fuelOut ∧
    convertPre extStd 0 [mkSeg ⟨0, 0⟩ ⟨1, 0⟩] ⟨[]⟩ ≠ PreOut.outOfFuel :=
  ⟨c8_termination_bounded_by_pool_size.1 ⟨0, 0⟩ [mkSeg ⟨0, 0⟩ ⟨1, 0⟩] 0
      (mkSeg ⟨0, 0⟩ ⟨1, 0⟩) [] (by decide),
   c8_termination_bounded_by_pool_size.2.1 extStd 0 ⟨0, 0⟩ 1 (mkSeg ⟨0, 0⟩ ⟨1, 0⟩)
      ⟨0, 0⟩ [] [] (by decide),
   c8_termination_bounded_by_pool_size.2.2.1 extStd 0 1 [mkSeg ⟨0, 0⟩ ⟨1, 0⟩] ⟨[]⟩
      true none 0 (by decide),
   c8_termination_bounded_by_pool_size.2.2.2 extStd 0 [mkSeg ⟨0, 0⟩ ⟨1, 0⟩] ⟨[]⟩⟩

/-- Claim C10: on the empty input list `ConvertOutlineToPolygon` returns
true immediately and leaves the output polygon set completely unchanged:
no outline, hole or point is added and no error location is written. -/
theorem c10_empty_input_unchanged :
    ∀ (E : Externals) (tol : Nat) (P0 : PolySet),
      ConvertOutlineToPolygon E tol [] P0 = ⟨true, P0, none⟩ := by
  intro E tol P0
  rfl

/-! ## Correctness of the nearest-endpoint search -/

/-- An endpoint of `g` equals the reference point exactly. -/
def hasExact (p : Pt) (g : DSeg) : Prop :=
  p = (endPts g).1 ∨ p = (endPts g).2

instance (p : Pt) (g : DSeg) : Decidable (hasExact p g) := by
  unfold hasExact; exact inferInstance

/-- The distance from the reference point to `g`'s best endpoint. -/
def endDist (p : Pt) (g : DSeg) : Nat :=
  min (close_ness p (endPts g).1) (close_ness p (endPts g).2)

/-- The minimum endpoint distance over the pool, seeded (like the code's
`min_d`) with `INT_MAX`. -/
def minEndDist (p : Pt) (l : List DSeg) : Nat :=
  l.foldl (fun a g => min (endDist p g) a) intMaxN

lemma findExact_of_split (p : Pt) :
    ∀ (l₁ : List DSeg) (g : DSeg) (l₂ : List DSeg),
      (∀ g' ∈ l₁, ¬ hasExact p g') → hasExact p g →
        findExact p (l₁ ++ g :: l₂) = some (g, l₁ ++ l₂) := by
  intro l₁
  induction l₁ with
  | nil =>
    intro g l₂ _ hg
    rw [List.nil_append, findExact,
      if_pos (show p = (endPts g).1 ∨ p = (endPts g).2 from hg), List.nil_append]
  | cons a t ih =>
    intro g l₂ hall hg
    have ha : ¬ hasExact p a := hall a (by simp)
    rw [List.cons_append, findExact,
      if_neg (show ¬ (p = (endPts a).1 ∨ p = (endPts a).2) from ha),
      ih g l₂ (fun g' hm => hall g' (by simp [hm])) hg]
    rfl

lemma findExact_none_of (p : Pt) :
    ∀ (l : List DSeg), (∀ g ∈ l, ¬ hasExact p g) → findExact p l = none := by
  intro l
  induction l with
  | nil => intro _; rfl
  | cons a t ih =>
    intro hall
    rw [findExact,
      if_neg (show ¬ (p = (endPts a).1 ∨ p = (endPts a).2) from hall a (by simp)),
      ih (fun g hm => hall g (by simp [hm]))]

lemma twoStepMin (d1 d2 m i n : Nat) :
    (if d2 < (if d1 < m then (d1, i) else (m, n)).1 then (d2, i)
     else (if d1 < m then (d1, i) else (m, n))) =
      (min (min d1 d2) m, if min d1 d2 < m then i else n) := by
  by_cases h1 : d1 < m
  · rw [if_pos h1]
    dsimp only
    by_cases h2 : d2 < d1
    · rw [if_pos h2, if_pos (show min d1 d2 < m by omega)]
      rw [show min (min d1 d2) m = d2 by omega]
    · rw [if_neg h2, if_pos (show min d1 d2 < m by omega)]
      rw [show min (min d1 d2) m = d1 by omega]
  · rw [if_neg h1]
    dsimp only
    by_cases h2 : d2 < m
    · rw [if_pos h2, if_pos (show min d1 d2 < m by omega)]
      rw [show min (min d1 d2) m = d2 by omega]
    · rw [if_neg h2, if_neg (show ¬ min d1 d2 < m by omega)]
      rw [show min (min d1 d2) m = m by omega]

lemma bestScan_cons_eq (p : Pt) (g : DSeg) (l : List DSeg) (i m n : Nat) :
    bestScan p (g :: l) i m n =
      bestScan p l (i + 1) (min (endDist p g) m) (if endDist p g < m then i else n) := by
  simp only [bestScan]
  rw [twoStepMin]
  simp [endDist]

lemma bestScan_fst (p : Pt) :
    ∀ (l : List DSeg) (i m n : Nat),
      (bestScan p l i m n).1 = l.foldl (fun a g => min (endDist p g) a) m := by
  intro l
  induction l with
  | nil => intro i m n; simp [bestScan]
  | cons g t ih =>
    intro i m n
    rw [bestScan_cons_eq, List.foldl_cons, ih]

lemma foldlMin_le_init (p : Pt) :
    ∀ (l : List DSeg) (m : Nat), l.foldl (fun a g => min (endDist p g) a) m ≤ m := by
  intro l
  induction l with
  | nil => intro m; simp
  | cons g t ih =>
    intro m
    rw [List.foldl_cons]
    exact le_trans (ih (min (endDist p g) m)) (by omega)

lemma foldlMin_le_mem (p : Pt) :
    ∀ (l : List DSeg) (m : Nat) (g : DSeg), g ∈ l →
      l.foldl (fun a g => min (endDist p g) a) m ≤ endDist p g := by
  intro l
  induction l with
  | nil => intro m g hm; simp at hm
  | cons a t ih =>
    intro m g hm
    rw [List.foldl_cons]
    rcases List.mem_cons.1 hm with h | h
    · subst h
      exact le_trans (foldlMin_le_init p t _) (by omega)
    · exact ih _ g h

lemma bestScan_no_update (p : Pt) :
    ∀ (l : List DSeg) (i m n : Nat), (∀ g ∈ l, m ≤ endDist p g) →
      bestScan p l i m n = (m, n) := by
  intro l
  induction l with
  | nil => intro i m n _; rfl
  | cons g t ih =>
    intro i m n hall
    have hg : m ≤ endDist p g := hall g (by simp)
    rw [bestScan_cons_eq, show min (endDist p g) m = m by omega,
      if_neg (show ¬ endDist p g < m by omega)]
    exact ih (i + 1) m n (fun g' hm => hall g' (by simp [hm]))

lemma bestScan_idx_get (p : Pt) :
    ∀ (l : List DSeg) (i m n : Nat), (bestScan p l i m n).1 < m →
      ∃ j, ∃ hj : j < l.length, (bestScan p l i m n).2 = i + j ∧
        endDist p (l.get ⟨j, hj⟩) = (bestScan p l i m n).1 := by
  intro l
  induction l with
  | nil => intro i m n h; rw [show bestScan p [] i m n = (m, n) from rfl] at h; omega
  | cons g t ih =>
    intro i m n h
    rw [bestScan_cons_eq] at h ⊢
    by_cases hd : endDist p g < m
    · rw [show min (endDist p g) m = endDist p g by omega, if_pos hd] at h ⊢
      by_cases hR : (bestScan p t (i + 1) (endDist p g) i).1 < endDist p g
      · obtain ⟨j, hj, hidx, hval⟩ := ih (i + 1) (endDist p g) i hR
        refine ⟨j + 1, by simp only [List.length_cons]; omega, ?_, ?_⟩
        · rw [hidx]; omega
        · rw [List.get_cons_succ, hval]
      · have h1 : (bestScan p t (i + 1) (endDist p g) i).1 ≤ endDist p g := by
          rw [bestScan_fst]
          exact foldlMin_le_init p t _
        have heq : (bestScan p t (i + 1) (endDist p g) i).1 = endDist p g := by omega
        have hmem : ∀ g' ∈ t, endDist p g ≤ endDist p g' := by
          intro g' hm
          have := foldlMin_le_mem p t (endDist p g) g' hm
          rw [← bestScan_fst p t (i + 1) (endDist p g) i, heq] at this
          exact this
        rw [bestScan_no_update p t (i + 1) (endDist p g) i hmem]
        exact ⟨0, by simp, by simp, by simp⟩
    · rw [show min (endDist p g) m = m by omega, if_neg hd] at h ⊢
      obtain ⟨j, hj, hidx, hval⟩ := ih (i + 1) m n h
      refine ⟨j + 1, by simp only [List.length_cons]; omega, ?_, ?_⟩
      · rw [hidx]; omega
      · rw [List.get_cons_succ, hval]

lemma split_at_get (l : List DSeg) (j : Nat) (hj : j < l.length) :
    l = l.take j ++ l.get ⟨j, hj⟩ :: l.drop (j + 1) ∧
      l.eraseIdx j = l.take j ++ l.drop (j + 1) := by
  constructor
  · conv_lhs => rw [← List.take_append_drop j l]
    rw [List.drop_eq_getElem_cons hj, List.get_eq_getElem]
  · exact List.eraseIdx_eq_take_drop_succ l j

/-- Claim C3: the `findPoint` contract.  (1) An exact endpoint match wins by
pool order: for any decomposition of the pool with no exact match before
`g` and an exact match at `g`, exactly `g` is removed and returned.
(2) Without an exact match, and on machine-int distances (every endpoint
distance below `INT_MAX`, where the C++ arithmetic is defined), the owner
of the minimum-distance endpoint is removed and returned precisely when
that distance is within the tolerance.  (3) Otherwise the search fails and
— being a pure function returning the untouched remainder only on success
— leaves the pool unchanged. -/
theorem c3_findPoint_contract (p : Pt) (l : List DSeg) (lim : Nat) :
    (∀ (l₁ : List DSeg) (g : DSeg) (l₂ : List DSeg),
        l = l₁ ++ g :: l₂ → hasExact p g → (∀ g' ∈ l₁, ¬ hasExact p g') →
          findPoint p l lim = some (g, l₁ ++ l₂)) ∧
    ((∀ g ∈ l, ¬ hasExact p g) → (∀ g ∈ l, endDist p g < intMaxN) → l ≠ [] →
      minEndDist p l ≤ lim →
        ∃ (l₁ : List DSeg) (g : DSeg) (l₂ : List DSeg),
          l = l₁ ++ g :: l₂ ∧ endDist p g = minEndDist p l ∧
            findPoint p l lim = some (g, l₁ ++ l₂)) ∧
    ((∀ g ∈ l, ¬ hasExact p g) → lim < minEndDist p l → findPoint p l lim = none) := by
  have hfst : (bestScan p l 0 intMaxN 0).1 = minEndDist p l := by
    rw [bestScan_fst]; rfl
  refine ⟨?_, ?_, ?_⟩
  · intro l₁ g l₂ hsplit hg hall
    subst hsplit
    unfold findPoint
    rw [findExact_of_split p l₁ g l₂ hall hg]
  · intro hnone hND hne hlim
    have he := findExact_none_of p l hnone
    obtain ⟨g₀, hg₀⟩ : ∃ g₀, g₀ ∈ l := by
      cases l with
      | nil => exact absurd rfl hne
      | cons a t => exact ⟨a, by simp⟩
    have hlt : (bestScan p l 0 intMaxN 0).1 < intMaxN := by
      rw [hfst]
      exact lt_of_le_of_lt (foldlMin_le_mem p l intMaxN g₀ hg₀) (hND g₀ hg₀)
    obtain ⟨j, hj, hidx, hval⟩ := bestScan_idx_get p l 0 intMaxN 0 hlt
    have hsplit := split_at_get l j hj
    refine ⟨l.take j, l.get ⟨j, hj⟩, l.drop (j + 1), hsplit.1, by rw [hval, hfst], ?_⟩
    simp only [findPoint, he]
    rw [if_pos (by rw [hfst]; exact hlim)]
    rw [hidx, Nat.zero_add, List.get?_eq_get hj, hsplit.2]
  · intro hnone hlim
    have he := findExact_none_of p l hnone
    simp only [findPoint, he]
    rw [if_neg (by rw [hfst]; omega)]

theorem c3_findPoint_contract_witness :
    findPoint ⟨0, 0⟩ [mkSeg ⟨5, 5⟩ ⟨9, 9⟩, mkSeg ⟨0, 0⟩ ⟨1, 0⟩] 0 =
      some (mkSeg ⟨0, 0⟩ ⟨1, 0⟩, [mkSeg ⟨5, 5⟩ ⟨9, 9⟩]) ∧
    (∃ (l₁ : List DSeg) (g : DSeg) (l₂ : List DSeg),
      [mkSeg ⟨5, 0⟩ ⟨9, 9⟩, mkSeg ⟨2, 0⟩ ⟨9, 9⟩] = l₁ ++ g :: l₂ ∧
        endDist ⟨0, 0⟩ g = minEndDist ⟨0, 0⟩ [mkSeg ⟨5, 0⟩ ⟨9, 9⟩, mkSeg ⟨2, 0⟩ ⟨9, 9⟩] ∧
        findPoint ⟨0, 0⟩ [mkSeg ⟨5, 0⟩ ⟨9, 9⟩, mkSeg ⟨2, 0⟩ ⟨9, 9⟩] 3 = some (g, l₁ ++ l₂)) ∧
    findPoint ⟨0, 0⟩ [mkSeg ⟨5, 0⟩ ⟨9, 9⟩, mkSeg ⟨2, 0⟩ ⟨9, 9⟩] 1 = none :=
  ⟨(c3_findPoint_contract ⟨0, 0⟩ [mkSeg ⟨5, 5⟩ ⟨9, 9⟩, mkSeg ⟨0, 0⟩ ⟨1, 0⟩] 0).1
      [mkSeg ⟨5, 5⟩ ⟨9, 9⟩] (mkSeg ⟨0, 0⟩ ⟨1, 0⟩) [] (by decide) (by decide) (by decide),
   (c3_findPoint_contract ⟨0, 0⟩ [mkSeg ⟨5, 0⟩ ⟨9, 9⟩, mkSeg ⟨2, 0⟩ ⟨9, 9⟩] 3).2.1
      (by decide) (by decide) (by decide) (by decide),
   (c3_findPoint_contract ⟨0, 0⟩ [mkSeg ⟨5, 0⟩ ⟨9, 9⟩, mkSeg ⟨2, 0⟩ ⟨9, 9⟩] 1).2.2
      (by decide) (by decide)⟩

/-! ## The post-validation pairwise scan -/

lemma pairCheck_dup_inv (E : Externals) (a b a' b' : Pt × Pt)
    (h : pairCheck E a b = some (.dup a' b')) :
    a' = a ∧ b' = b ∧ (a = b ∨ (a.1 = b.2 ∧ a.2 = b.1)) := by
  unfold pairCheck at h
  by_cases hc : a = b ∨ (a.1 = b.2 ∧ a.2 = b.1)
  · rw [if_pos hc] at h
    injection h with h2
    injection h2 with h3 h4
    exact ⟨h3.symm, h4.symm, hc⟩
  · rw [if_neg hc] at h
    cases hsi : E.segInt a b with
    | none => rw [hsi] at h; exact absurd h (by simp)
    | some q => rw [hsi] at h; exact absurd h (by simp)

lemma pairCheck_cross_inv (E : Externals) (a b : Pt × Pt) (q : Pt)
    (h : pairCheck E a b = some (.cross q)) : E.segInt a b = some q := by
  unfold pairCheck at h
  by_cases hc : a = b ∨ (a.1 = b.2 ∧ a.2 = b.1)
  · rw [if_pos hc] at h
    exact absurd h (by simp)
  · rw [if_neg hc] at h
    cases hsi : E.segInt a b with
    | none => rw [hsi] at h; exact absurd h (by simp)
    | some q2 =>
      rw [hsi] at h
      injection h with h2
      injection h2 with h3
      rw [h3]

lemma pairCheck_none_inv (E : Externals) (a b : Pt × Pt) (h : pairCheck E a b = none) :
    ¬(a = b ∨ (a.1 = b.2 ∧ a.2 = b.1)) ∧ E.segInt a b = none := by
  unfold pairCheck at h
  by_cases hc : a = b ∨ (a.1 = b.2 ∧ a.2 = b.1)
  · rw [if_pos hc] at h; exact absurd h (by simp)
  · rw [if_neg hc] at h
    cases hsi : E.segInt a b with
    | none => exact ⟨hc, rfl⟩
    | some q => rw [hsi] at h; exact absurd h (by simp)

lemma firstHit_some_mem (E : Externals) (a : Pt × Pt) :
    ∀ (l : List (Pt × Pt)) (v : Violation), firstHit E a l = some v →
      ∃ b ∈ l, pairCheck E a b = some v := by
  intro l
  induction l with
  | nil => intro v h; simp [firstHit] at h
  | cons b t ih =>
    intro v h
    rw [firstHit] at h
    cases hpc : pairCheck E a b with
    | some v2 =>
      rw [hpc] at h
      injection h with h2
      exact ⟨b, by simp, by rw [hpc, h2]⟩
    | none =>
      rw [hpc] at h
      obtain ⟨b2, hm, hp⟩ := ih v h
      exact ⟨b2, by simp [hm], hp⟩

lemma firstHit_none_mem (E : Externals) (a : Pt × Pt) :
    ∀ (l : List (Pt × Pt)), firstHit E a l = none →
      ∀ b ∈ l, pairCheck E a b = none := by
  intro l
  induction l with
  | nil => intro _ b hb; simp at hb
  | cons c t ih =>
    intro h b hb
    rw [firstHit] at h
    cases hpc : pairCheck E a c with
    | some v => rw [hpc] at h; exact absurd h (by simp)
    | none =>
      rw [hpc] at h
      rcases List.mem_cons.1 hb with hb | hb
      · rw [hb]; exact hpc
      · exact ih h b hb

lemma firstViolation_some_mem (E : Externals) :
    ∀ (l : List (Pt × Pt)) (v : Violation), firstViolation E l = some v →
      ∃ a ∈ l, ∃ b ∈ l, pairCheck E a b = some v := by
  intro l
  induction l with
  | nil => intro v h; simp [firstViolation] at h
  | cons a t ih =>
    intro v h
    rw [firstViolation] at h
    cases hfh : firstHit E a t with
    | some v2 =>
      rw [hfh] at h
      injection h with h2
      obtain ⟨b, hm, hp⟩ := firstHit_some_mem E a t v2 hfh
      exact ⟨a, by simp, b, by simp [hm], by rw [hp, h2]⟩
    | none =>
      rw [hfh] at h
      obtain ⟨a2, ha2, b2, hb2, hp⟩ := ih v h
      exact ⟨a2, by simp [ha2], b2, by simp [hb2], hp⟩

lemma firstViolation_cons_eq (E : Externals) (a : Pt × Pt) (rest : List (Pt × Pt)) :
    firstViolation E (a :: rest) =
      match firstHit E a rest with
      | some v => some v
      | none => firstViolation E rest := rfl

lemma firstViolation_none_pairs (E : Externals) :
    ∀ (l₁ : List (Pt × Pt)) (a : Pt × Pt) (l₂ : List (Pt × Pt)) (b : Pt × Pt)
      (l₃ : List (Pt × Pt)), firstViolation E (l₁ ++ a :: l₂ ++ b :: l₃) = none →
        pairCheck E a b = none := by
  intro l₁
  induction l₁ with
  | nil =>
    intro a l₂ b l₃ h
    rw [List.nil_append] at h
    simp only [List.cons_append] at h
    rw [firstViolation_cons_eq] at h
    cases hfh : firstHit E a (l₂ ++ b :: l₃) with
    | some v => rw [hfh] at h; exact absurd h (by simp)
    | none => exact firstHit_none_mem E a _ hfh b (by simp)
  | cons c t ih =>
    intro a l₂ b l₃ h
    simp only [List.cons_append] at h
    rw [firstViolation_cons_eq] at h
    cases hfh : firstHit E c (t ++ a :: l₂ ++ b :: l₃) with
    | some v => rw [hfh] at h; exact absurd h (by simp)
    | none =>
      rw [hfh] at h
      exact ih a l₂ b l₃ h

lemma convert_of_ready (E : Externals) (tol : Nat) (segs : List DSeg) (P0 P : PolySet)
    (comp : Bool) (eLoc : Option Pt) (h : convertPre E tol segs P0 = .ready P comp eLoc) :
    ConvertOutlineToPolygon E tol segs P0 =
      match firstViolation E (allSegs P) with
      | some (.dup a _) => ⟨false, P, some a.1⟩
      | some (.cross p) => ⟨false, P, some p⟩
      | none => ⟨comp, P, eLoc⟩ := by
  unfold ConvertOutlineToPolygon
  rw [h]

/-- Claim C4: whenever the run reaches post-validation, a detected exact
duplicate or exact reverse-duplicate pair makes `ConvertOutlineToPolygon`
return false with the error location at the first segment's A point — a
point the two segments share; a detected crossing makes it return false
with the error location at the oracle's intersection point; and the
existence of any offending pair anywhere in the produced segments forces a
false return. -/
theorem c4_post_validation_fails (E : Externals) (tol : Nat) (segs : List DSeg)
    (P0 P : PolySet) (comp : Bool) (eLoc : Option Pt)
    (hready : convertPre E tol segs P0 = .ready P comp eLoc) :
    (∀ a b, firstViolation E (allSegs P) = some (.dup a b) →
        ConvertOutlineToPolygon E tol segs P0 = ⟨false, P, some a.1⟩ ∧
          (a = b ∨ (a.1 = b.2 ∧ a.2 = b.1)) ∧ (a.1 = b.1 ∨ a.1 = b.2) ∧
          a ∈ allSegs P ∧ b ∈ allSegs P) ∧
    (∀ q, firstViolation E (allSegs P) = some (.cross q) →
        ConvertOutlineToPolygon E tol segs P0 = ⟨false, P, some q⟩ ∧
          ∃ a, a ∈ allSegs P ∧ ∃ b, b ∈ allSegs P ∧ E.segInt a b = some q) ∧
    (∀ l₁ a l₂ b l₃, allSegs P = l₁ ++ a :: l₂ ++ b :: l₃ →
        (a = b ∨ (a.1 = b.2 ∧ a.2 = b.1) ∨ E.segInt a b ≠ none) →
          (ConvertOutlineToPolygon E tol segs P0).ret = false) := by
  refine ⟨?_, ?_, ?_⟩
  · intro a b hv
    obtain ⟨a2, ha2, b2, hb2, hp⟩ := firstViolation_some_mem E (allSegs P) _ hv
    obtain ⟨hae, hbe, hdup⟩ := pairCheck_dup_inv E a2 b2 a b hp
    subst hae
    subst hbe
    refine ⟨by rw [convert_of_ready E tol segs P0 P comp eLoc hready, hv], hdup, ?_, ha2, hb2⟩
    rcases hdup with h | h
    · rw [h]; exact Or.inl rfl
    · exact Or.inr h.1
  · intro q hv
    obtain ⟨a2, ha2, b2, hb2, hp⟩ := firstViolation_some_mem E (allSegs P) _ hv
    refine ⟨by rw [convert_of_ready E tol segs P0 P comp eLoc hready, hv],
      a2, ha2, b2, hb2, pairCheck_cross_inv E a2 b2 q hp⟩
  · intro l₁ a l₂ b l₃ hsplit hoff
    cases hv : firstViolation E (allSegs P) with
    | none =>
      rw [hsplit] at hv
      have := pairCheck_none_inv E a b (firstViolation_none_pairs E l₁ a l₂ b l₃ hv)
      rcases hoff with h | h | h
      · exact absurd (Or.inl h) this.1
      · exact absurd (Or.inr h) this.1
      · exact absurd this.2 h
    | some v =>
      rw [convert_of_ready E tol segs P0 P comp eLoc hready, hv]
      cases v <;> rfl

/-- The doubled edge: one segment and its exact reverse. -/
def exDup : List DSeg := [mkSeg ⟨0, 0⟩ ⟨10, 0⟩, mkSeg ⟨10, 0⟩ ⟨0, 0⟩]

/-- The polygon set the chaining phase produces for `exDup`. -/
def exDupPoly : PolySet := ⟨[⟨⟨[⟨10, 0⟩, ⟨0, 0⟩, ⟨10, 0⟩], true⟩, []⟩]⟩

theorem c4_post_validation_fails_witness :
    ConvertOutlineToPolygon extStd 0 exDup ⟨[]⟩ = ⟨false, exDupPoly, some ⟨10, 0⟩⟩ :=
  ((c4_post_validation_fails extStd 0 exDup ⟨[]⟩ exDupPoly true none (by decide)).1
    (⟨10, 0⟩, ⟨0, 0⟩) (⟨0, 0⟩, ⟨10, 0⟩) (by decide)).1

/-- Claim C5, counterexample: on the doubled edge `exDup` the chaining
phase succeeds (completeness true), the post-validation scan's finding is
an exact reverse-duplicate pair — two distinct segments with the same
endpoints in opposite order, no true geometric crossing — and yet
`ConvertOutlineToPolygon` returns false: the reverse-duplicate is fatal,
not non-fatal. -/
theorem c5_counterexample_reverse_dup_fatal :
    convertPre extStd 0 exDup ⟨[]⟩ = .ready exDupPoly true none ∧
    firstViolation extStd (allSegs exDupPoly) =
      some (.dup (⟨10, 0⟩, ⟨0, 0⟩) (⟨0, 0⟩, ⟨10, 0⟩)) ∧
    ((⟨10, 0⟩, ⟨0, 0⟩) : Pt × Pt) ≠ (⟨0, 0⟩, ⟨10, 0⟩) ∧
    segIntersectSpec (⟨10, 0⟩, ⟨0, 0⟩) (⟨0, 0⟩, ⟨10, 0⟩) = none ∧
    (ConvertOutlineToPolygon extStd 0 exDup ⟨[]⟩).ret = false := by
  refine ⟨by decide, by decide, by decide, by decide, by decide⟩

/-- Claim C5 as amended: an exact reverse-duplicate edge is fatal exactly
like a true geometric intersection — whenever the post-validation scan's
first finding is a (reverse-)duplicate pair, the operation returns false;
the only asymmetry is that the pair is excluded from the intersection test
and reported at the shared endpoint instead of an intersection point. -/
theorem c5_reverse_dup_is_fatal (E : Externals) (tol : Nat) (segs : List DSeg)
    (P0 P : PolySet) (comp : Bool) (eLoc : Option Pt)
    (hready : convertPre E tol segs P0 = .ready P comp eLoc)
    (a b : Pt × Pt) (hv : firstViolation E (allSegs P) = some (.dup a b)) :
    (ConvertOutlineToPolygon E tol segs P0).ret = false ∧
    (ConvertOutlineToPolygon E tol segs P0).errLoc = some a.1 ∧
    (a.1 = b.1 ∨ a.1 = b.2) := by
  have h := convert_of_ready E tol segs P0 P comp eLoc hready
  rw [hv] at h
  obtain ⟨a2, _, b2, _, hp⟩ := firstViolation_some_mem E (allSegs P) _ hv
  obtain ⟨hae, hbe, hdup⟩ := pairCheck_dup_inv E a2 b2 a b hp
  subst hae
  subst hbe
  refine ⟨by rw [h], by rw [h], ?_⟩
  rcases hdup with h2 | h2
  · rw [h2]; exact Or.inl rfl
  · exact Or.inr h2.1

theorem c5_reverse_dup_is_fatal_witness :
    (ConvertOutlineToPolygon extStd 0 exDup ⟨[]⟩).ret = false ∧
    (ConvertOutlineToPolygon extStd 0 exDup ⟨[]⟩).errLoc = some ⟨10, 0⟩ ∧
    (((⟨10, 0⟩, ⟨0, 0⟩) : Pt × Pt).1 = ((⟨0, 0⟩, ⟨10, 0⟩) : Pt × Pt).1 ∨
      ((⟨10, 0⟩, ⟨0, 0⟩) : Pt × Pt).1 = ((⟨0, 0⟩, ⟨10, 0⟩) : Pt × Pt).2) :=
  c5_reverse_dup_is_fatal extStd 0 exDup ⟨[]⟩ exDupPoly true none (by decide)
    (⟨10, 0⟩, ⟨0, 0⟩) (⟨0, 0⟩, ⟨10, 0⟩) (by decide)

/-! ## The four-segment square example and tolerance monotonicity -/

/-- The spec's example input: four exactly matching square sides. -/
def sqSegs : List DSeg :=
  [mkSeg ⟨0, 0⟩ ⟨10, 0⟩, mkSeg ⟨10, 0⟩ ⟨10, 10⟩,
   mkSeg ⟨10, 10⟩ ⟨0, 10⟩, mkSeg ⟨0, 10⟩ ⟨0, 0⟩]

/-- The square's four corner points. -/
def sqCorners : List Pt := [⟨0, 0⟩, ⟨10, 0⟩, ⟨10, 10⟩, ⟨0, 10⟩]

/-- All rotations (choices of starting point) of a point list. -/
def rotationsOf (l : List Pt) : List (List Pt) :=
  (List.range l.length).map (fun k => l.drop k ++ l.take k)

/-- Claim C2, counterexample: on the four-segment square at tolerance 0 the
conversion does return true with one outline and no holes, but the outline
is not the four corner points in any rotation — the walk lands back on the
chain's start point and appends it again, so the outline has five points
with the start point duplicated at the end. -/
theorem c2_counterexample_five_points :
    (ConvertOutlineToPolygon extStd 0 sqSegs ⟨[]⟩).ret = true ∧
    (ConvertOutlineToPolygon extStd 0 sqSegs ⟨[]⟩).poly.outlines.map
        (fun o => (o.boundary.points, o.holes)) =
      [([⟨10, 0⟩, ⟨0, 0⟩, ⟨0, 10⟩, ⟨10, 10⟩, ⟨10, 0⟩], [])] ∧
    (∀ pts ∈ rotationsOf sqCorners,
      (ConvertOutlineToPolygon extStd 0 sqSegs ⟨[]⟩).poly.outlines.map
          (fun o => o.boundary.points) ≠ [pts]) := by
  refine ⟨by decide, by decide, by decide⟩

/-- Claim C2 as amended: on the four-segment square at tolerance 0 the
conversion returns true and produces exactly one outer outline with zero
holes, whose point list is the four corners in traversal order with the
chain's start point `(10, 0)` appended again at the end (five points; as a
point set, exactly the four corners). -/
theorem c2_square_amended :
    ConvertOutlineToPolygon extStd 0 sqSegs ⟨[]⟩ =
      ⟨true, ⟨[⟨⟨[⟨10, 0⟩, ⟨0, 0⟩, ⟨0, 10⟩, ⟨10, 10⟩, ⟨10, 0⟩], true⟩, []⟩]⟩, none⟩ ∧
    (∀ p ∈ [(⟨10, 0⟩ : Pt), ⟨0, 0⟩, ⟨0, 10⟩, ⟨10, 10⟩, ⟨10, 0⟩], p ∈ sqCorners) ∧
    (∀ p ∈ sqCorners, p ∈ [(⟨10, 0⟩ : Pt), ⟨0, 0⟩, ⟨0, 10⟩, ⟨10, 10⟩, ⟨10, 0⟩]) := by
  refine ⟨by decide, by decide, by decide⟩

/-- The square plus a nearby open triangle: its entry vertex `(13, 0)` sits
at Manhattan distance 3 from the square walk's end point `(10, 0)` and its
closing gap `(13, 1)`–`(13, 0)` is 1. -/
def exC7 : List DSeg :=
  sqSegs ++
    [mkSeg ⟨13, 0⟩ ⟨20, 0⟩, mkSeg ⟨20, 0⟩ ⟨20, 8⟩, mkSeg ⟨20, 8⟩ ⟨13, 1⟩]

/-- The polygon set the chaining phase produces for `exC7` at tolerance 1:
the square closes as the outer outline and the triangle closes (within its
gap of 1) as a hole. -/
def exC7PolyLo : PolySet :=
  ⟨[⟨⟨[⟨10, 0⟩, ⟨0, 0⟩, ⟨0, 10⟩, ⟨10, 10⟩, ⟨10, 0⟩], true⟩,
     [⟨[⟨20, 0⟩, ⟨13, 0⟩, ⟨20, 8⟩, ⟨20, 0⟩], true⟩]⟩]⟩

/-- The polygon set the chaining phase produces for `exC7` at tolerance 3:
`findPoint` now pulls the triangle into the outer chain, which then ends at
`(13, 1)`, Manhattan distance 4 from the start point — unclosed. -/
def exC7PolyHi : PolySet :=
  ⟨[⟨⟨[⟨10, 0⟩, ⟨0, 0⟩, ⟨0, 10⟩, ⟨10, 10⟩, ⟨10, 0⟩, ⟨20, 0⟩, ⟨20, 8⟩, ⟨13, 1⟩],
      true⟩, []⟩]⟩

/-- Claim C7, counterexample: tolerance monotonicity fails.  On `exC7` the
conversion at tolerance 1 is fully closed (completeness flag true, returns
true), yet at the larger tolerance 3 the chaining ends unclosed
(completeness flag false, returns false): the larger tolerance diverts the
outer chain into the triangle and strands it at `(13, 1)`. -/
theorem c7_counterexample_monotonicity_fails :
    (1 : Nat) ≤ 3 ∧
    convertPre extStd 1 exC7 ⟨[]⟩ = .ready exC7PolyLo true none ∧
    (ConvertOutlineToPolygon extStd 1 exC7 ⟨[]⟩).ret = true ∧
    convertPre extStd 3 exC7 ⟨[]⟩ = .ready exC7PolyHi false (some ⟨13, 1⟩) ∧
    (ConvertOutlineToPolygon extStd 3 exC7 ⟨[]⟩).ret = false := by
  refine ⟨by decide, by decide, by decide, by decide, by decide⟩

/-- Claim C7 as amended: monotonicity does hold for the two tolerance-gated
tests themselves — a `close_enough` test that succeeds at the smaller
tolerance succeeds at the larger, and a `findPoint` that succeeds at the
smaller tolerance succeeds at the larger with the same primitive removed —
but not for the whole-run completeness flag (see the counterexample). -/
theorem c7_pointwise_tolerance_monotonicity (t1 t2 : Nat) (h12 : t1 ≤ t2) :
    (∀ p q : Pt, close_enough p q t1 = true → close_enough p q t2 = true) ∧
    (∀ (p : Pt) (l : List DSeg) (g : DSeg) (l' : List DSeg),
        findPoint p l t1 = some (g, l') → findPoint p l t2 = some (g, l')) := by
  constructor
  · intro p q h
    simp only [close_enough, decide_eq_true_eq] at h ⊢
    omega
  · intro p l g l' h
    unfold findPoint at h ⊢
    cases he : findExact p l with
    | some r =>
      rw [he] at h
      exact h
    | none =>
      rw [he] at h
      dsimp only at h ⊢
      by_cases h1 : (bestScan p l 0 intMaxN 0).1 ≤ t1
      · rw [if_pos h1] at h
        rw [if_pos (le_trans h1 h12)]
        exact h
      · rw [if_neg h1] at h
        exact absurd h (by simp)

theorem c7_pointwise_tolerance_monotonicity_witness :
    (close_enough ⟨0, 0⟩ ⟨1, 0⟩ 2 = true) ∧
    findPoint ⟨0, 0⟩ [mkSeg ⟨1, 0⟩ ⟨5, 5⟩] 2 = some (mkSeg ⟨1, 0⟩ ⟨5, 5⟩, []) :=
  ⟨(c7_pointwise_tolerance_monotonicity 1 2 (by decide)).1 ⟨0, 0⟩ ⟨1, 0⟩ (by decide),
   (c7_pointwise_tolerance_monotonicity 1 2 (by decide)).2 ⟨0, 0⟩
     [mkSeg ⟨1, 0⟩ ⟨5, 5⟩] (mkSeg ⟨1, 0⟩ ⟨5, 5⟩) [] (by decide)⟩

/-! ## What the hole loop preserves -/

/-- The boundary chains of all outlines (the holes stripped). -/
def boundariesOf (P : PolySet) : List Chain :=
  P.outlines.map (fun o => o.boundary)

lemma updateLast_map {α β : Type _} (f : α → α) (proj : α → β)
    (h : ∀ a, proj (f a) = proj a) :
    ∀ l : List α, (updateLast f l).map proj = l.map proj
  | [] => rfl
  | [a] => by simp [updateLast, h]
  | a :: b :: t => by
    have ih := updateLast_map f proj h (b :: t)
    simp only [updateLast, List.map_cons] at ih ⊢
    rw [ih]

lemma modifyAt_map {α β : Type _} (f : α → α) (proj : α → β)
    (h : ∀ a, proj (f a) = proj a) :
    ∀ (i : Nat) (l : List α), (modifyAt i f l).map proj = l.map proj
  | _, [] => by simp [modifyAt]
  | 0, a :: t => by simp [modifyAt, h]
  | i + 1, a :: t => by
    have ih := modifyAt_map f proj h i t
    simp only [modifyAt, List.map_cons] at ih ⊢
    rw [ih]

lemma newHole_boundaries (P : PolySet) : boundariesOf P.newHole = boundariesOf P := by
  unfold boundariesOf PolySet.newHole
  apply updateLast_map
  intro a
  rfl

lemma appendHolePt_boundaries (P : PolySet) (p : Pt) :
    boundariesOf (P.appendHolePt p) = boundariesOf P := by
  unfold boundariesOf PolySet.appendHolePt
  apply updateLast_map
  intro a
  rfl

lemma setHoleOpen_boundaries (P : PolySet) (i j : Nat) :
    boundariesOf (P.setHoleOpen i j) = boundariesOf P := by
  unfold boundariesOf PolySet.setHoleOpen
  apply modifyAt_map
  intro a
  rfl

lemma appendAllHole_boundaries :
    ∀ (pts : List Pt) (P : PolySet), boundariesOf (appendAllHole P pts) = boundariesOf P
  | [], _ => rfl
  | p :: pts, P => by
    have ih := appendAllHole_boundaries pts (P.appendHolePt p)
    simp only [appendAllHole, List.foldl_cons] at ih ⊢
    rw [ih, appendHolePt_boundaries]

lemma holePoly_boundaries (E : Externals) (tol : Nat) (P : PolySet) (g : DSeg)
    (rest : List DSeg) : boundariesOf (holePoly E tol P g rest) = boundariesOf P := by
  unfold holePoly
  rw [appendAllHole_boundaries, appendHolePt_boundaries, newHole_boundaries]

lemma holesLoop_boundaries (E : Externals) (tol : Nat) :
    ∀ (fuel : Nat) (pool : List DSeg) (P : PolySet) (comp : Bool) (eLoc : Option Pt)
      (n : Nat), boundariesOf (holesLoop E tol fuel pool P comp eLoc n).poly =
        boundariesOf P := by
  intro fuel
  induction fuel with
  | zero =>
    intro pool P comp eLoc n
    cases pool with
    | nil => rfl
    | cons g rest => rfl
  | succ m ih =>
    intro pool P comp eLoc n
    cases pool with
    | nil => rfl
    | cons g rest =>
      rw [holesLoop_cons]
      cases hs : g.shape with
      | polygonS =>
        rw [ih rest _ comp eLoc (n + 1), appendAllHole_boundaries, newHole_boundaries]
      | circleS =>
        rw [ih rest _ comp eLoc (n + 1), appendAllHole_boundaries, newHole_boundaries]
      | rectS =>
        rw [ih rest _ comp eLoc (n + 1), appendAllHole_boundaries, newHole_boundaries]
      | segmentS =>
        dsimp only
        cases hw : (holeWalk E tol g rest).wexit with
        | closed => rw [ih _ _ comp eLoc (n + 1), holePoly_boundaries]
        | unclosed q =>
          rw [ih _ _ false (some q) (n + 1), setHoleOpen_boundaries, holePoly_boundaries]
        | unsupported pos => exact holePoly_boundaries E tol P g rest
        | fuelOut => exact holePoly_boundaries E tol P g rest
      | arcS =>
        dsimp only
        cases hw : (holeWalk E tol g rest).wexit with
        | closed => rw [ih _ _ comp eLoc (n + 1), holePoly_boundaries]
        | unclosed q =>
          rw [ih _ _ false (some q) (n + 1), setHoleOpen_boundaries, holePoly_boundaries]
        | unsupported pos => exact holePoly_boundaries E tol P g rest
        | fuelOut => exact holePoly_boundaries E tol P g rest
      | curveS =>
        dsimp only
        cases hw : (holeWalk E tol g rest).wexit with
        | closed => rw [ih _ _ comp eLoc (n + 1), holePoly_boundaries]
        | unclosed q =>
          rw [ih _ _ false (some q) (n + 1), setHoleOpen_boundaries, holePoly_boundaries]
        | unsupported pos => exact holePoly_boundaries E tol P g rest
        | fuelOut => exact holePoly_boundaries E tol P g rest

lemma holesLoop_complete_false (E : Externals) (tol : Nat) :
    ∀ (fuel : Nat) (pool : List DSeg) (P : PolySet) (eLoc : Option Pt) (n : Nat),
      (holesLoop E tol fuel pool P false eLoc n).complete = false := by
  intro fuel
  induction fuel with
  | zero =>
    intro pool P eLoc n
    cases pool with
    | nil => rfl
    | cons g rest => rfl
  | succ m ih =>
    intro pool P eLoc n
    cases pool with
    | nil => rfl
    | cons g rest =>
      rw [holesLoop_cons]
      cases hs : g.shape with
      | polygonS => exact ih rest _ eLoc (n + 1)
      | circleS => exact ih rest _ eLoc (n + 1)
      | rectS => exact ih rest _ eLoc (n + 1)
      | segmentS =>
        dsimp only
        cases hw : (holeWalk E tol g rest).wexit with
        | closed => exact ih _ _ eLoc (n + 1)
        | unclosed q => exact ih _ _ (some q) (n + 1)
        | unsupported pos => rfl
        | fuelOut => rfl
      | arcS =>
        dsimp only
        cases hw : (holeWalk E tol g rest).wexit with
        | closed => exact ih _ _ eLoc (n + 1)
        | unclosed q => exact ih _ _ (some q) (n + 1)
        | unsupported pos => rfl
        | fuelOut => rfl
      | curveS =>
        dsimp only
        cases hw : (holeWalk E tol g rest).wexit with
        | closed => exact ih _ _ eLoc (n + 1)
        | unclosed q => exact ih _ _ (some q) (n + 1)
        | unsupported pos => rfl
        | fuelOut => rfl

lemma convert_ret_false_of_finishHoles (E : Externals) (tol : Nat) (segs : List DSeg)
    (P0 : PolySet) (pool : List DSeg) (P : PolySet) (eLoc : Option Pt)
    (hpre : convertPre E tol segs P0 = finishHoles E tol pool P false eLoc) :
    (ConvertOutlineToPolygon E tol segs P0).ret = false := by
  unfold ConvertOutlineToPolygon
  rw [hpre, finishHoles_eq]
  cases hh : (holesLoop E tol pool.length pool P false eLoc 0).hexit with
  | done =>
    dsimp only
    cases hv : firstViolation E (allSegs (holesLoop E tol pool.length pool P false eLoc 0).poly) with
    | none => exact holesLoop_complete_false E tol pool.length pool P eLoc 0
    | some v => cases v <;> rfl
  | abortedUnsupported => rfl
  | fuelOut => rfl

lemma convert_poly_of_finishHoles (E : Externals) (tol : Nat) (segs : List DSeg)
    (P0 : PolySet) (pool : List DSeg) (P : PolySet) (comp : Bool) (eLoc : Option Pt)
    (hpre : convertPre E tol segs P0 = finishHoles E tol pool P comp eLoc) :
    (ConvertOutlineToPolygon E tol segs P0).poly =
      (holesLoop E tol pool.length pool P comp eLoc 0).poly := by
  unfold ConvertOutlineToPolygon
  rw [hpre, finishHoles_eq]
  cases hh : (holesLoop E tol pool.length pool P comp eLoc 0).hexit with
  | done =>
    dsimp only
    cases hv : firstViolation E (allSegs (holesLoop E tol pool.length pool P comp eLoc 0).poly) with
    | none => rfl
    | some v => cases v <;> rfl
  | abortedUnsupported => rfl
  | fuelOut =>
    exact absurd hh (holesLoop_no_fuelOut E tol pool.length pool P comp eLoc 0 le_rfl)

lemma appendAll_single (cl : Bool) (hs : List Chain) :
    ∀ (pts acc : List Pt),
      appendAll ⟨[⟨⟨acc, cl⟩, hs⟩]⟩ pts = ⟨[⟨⟨acc ++ pts, cl⟩, hs⟩]⟩
  | [], acc => by simp [appendAll]
  | p :: pts, acc => by
    have ih := appendAll_single cl hs pts (acc ++ [p])
    simp only [appendAll, List.foldl_cons] at ih ⊢
    rw [show PolySet.appendPt ⟨[⟨⟨acc, cl⟩, hs⟩]⟩ p = ⟨[⟨⟨acc ++ [p], cl⟩, hs⟩]⟩ from rfl,
      ih]
    simp

/-- Claim C1: when a chain walk exhausts `findPoint`'s candidates at a point
not within tolerance of its start point, the conversion does not abort.
For the outer boundary: the run continues into the hole loop over the
remaining pool with the completeness flag cleared and the error location
set to the unmatched point, the overall result is false, and (from a fresh
polygon set) the outline keeps exactly the points produced so far.  For a
hole: the failing hole is marked open (`SetClosed(false)`), its points are
kept, the flag is cleared, the error location is set to the unmatched
point, and the loop continues with the remaining pool. -/
theorem c1_unclosed_chain_continues (E : Externals) (tol : Nat) (segs : List DSeg)
    (P0 : PolySet) (p : Pt)
    (hne : segs ≠ [])
    (hshape : (outerPick E tol segs).1.shape = .segmentS ∨
      (outerPick E tol segs).1.shape = .arcS ∨
      (outerPick E tol segs).1.shape = .curveS)
    (hexit : (outerWalk E tol segs).wexit = .unclosed p) :
    convertPre E tol segs P0 =
      finishHoles E tol (outerWalk E tol segs).pool (outerPoly E tol segs P0)
        false (some p) ∧
    (ConvertOutlineToPolygon E tol segs P0).ret = false ∧
    (P0 = ⟨[]⟩ →
      boundariesOf (ConvertOutlineToPolygon E tol segs P0).poly =
        [⟨outerStartPt E tol segs :: (outerWalk E tol segs).pts, true⟩]) ∧
    (∀ (fuel n : Nat) (P : PolySet) (comp : Bool) (eLoc : Option Pt) (g : DSeg)
        (rest : List DSeg) (q : Pt),
      (g.shape = .segmentS ∨ g.shape = .arcS ∨ g.shape = .curveS) →
      (holeWalk E tol g rest).wexit = .unclosed q →
        holesLoop E tol (fuel + 1) (g :: rest) P comp eLoc n =
          holesLoop E tol fuel (holeWalk E tol g rest).pool
            ((holePoly E tol P g rest).setHoleOpen 0 n) false (some q) (n + 1)) := by
  have hpre : convertPre E tol segs P0 =
      finishHoles E tol (outerWalk E tol segs).pool (outerPoly E tol segs P0)
        false (some p) := by
    cases segs with
    | nil => exact absurd rfl hne
    | cons s0 r0 =>
      rw [convertPre_cons]
      rcases hshape with h | h | h <;>
        (rw [h]; dsimp only; rw [hexit])
  refine ⟨hpre, ?_, ?_, ?_⟩
  · exact convert_ret_false_of_finishHoles E tol segs P0 _ _ _ hpre
  · intro hP0
    subst hP0
    rw [convert_poly_of_finishHoles E tol segs ⟨[]⟩ _ _ false (some p) hpre,
      holesLoop_boundaries]
    unfold outerPoly
    rw [show (PolySet.newOutline ⟨[]⟩).appendPt (outerStartPt E tol segs) =
        ⟨[⟨⟨[outerStartPt E tol segs], true⟩, []⟩]⟩ from rfl,
      appendAll_single]
    rfl
  · intro fuel n P comp eLoc g rest q hsh hq
    rw [holesLoop_cons]
    rcases hsh with h | h | h <;>
      (rw [h]; dsimp only; rw [hq])

/-- Three sides of the square: the outer walk strands at `(0, 0)`. -/
def exOpenSq : List DSeg :=
  [mkSeg ⟨0, 0⟩ ⟨10, 0⟩, mkSeg ⟨10, 0⟩ ⟨10, 10⟩, mkSeg ⟨10, 10⟩ ⟨0, 10⟩]

theorem c1_unclosed_chain_continues_witness :
    (ConvertOutlineToPolygon extStd 0 exOpenSq ⟨[]⟩).ret = false ∧
    boundariesOf (ConvertOutlineToPolygon extStd 0 exOpenSq ⟨[]⟩).poly =
      [⟨[⟨10, 0⟩, ⟨0, 0⟩], true⟩] := by
  have h := c1_unclosed_chain_continues extStd 0 exOpenSq ⟨[]⟩ ⟨0, 0⟩ (by decide)
    (Or.inl (by decide)) (by decide)
  refine ⟨h.2.1, ?_⟩
  rw [h.2.2.1 rfl]
  decide

/-- Claim C6: `BuildBoardPolygonOutlines` always leaves the output polygon
set non-empty.  Whenever the conversion step fails or yields zero outlines
the output is replaced by the fallback bounding-box rectangle, and that
fallback is always a single 4-point outline with no holes — its
construction cannot fail. -/
theorem c6_board_outlines_never_empty (E : Externals) (tol : Nat) (b : Board)
    (P0 : PolySet) :
    (BuildBoardPolygonOutlines E tol b P0).2.outlines ≠ [] ∧
    ((boardPre E tol b P0).1 = false ∨ (boardPre E tol b P0).2.outlines.length = 0 →
      BuildBoardPolygonOutlines E tol b P0 = ((boardPre E tol b P0).1, fallbackPoly b)) ∧
    (fallbackPoly b).outlines.length = 1 ∧
    (∀ o ∈ (fallbackPoly b).outlines, o.holes = [] ∧ o.boundary.points.length = 4) := by
  refine ⟨?_, ?_, rfl, ?_⟩
  · unfold BuildBoardPolygonOutlines
    by_cases hc : (boardPre E tol b P0).1 = false ∨ (boardPre E tol b P0).2.outlines.length = 0
    · rw [if_pos hc]
      simp [fallbackPoly]
    · rw [if_neg hc]
      push_neg at hc
      intro hmt
      exact hc.2 (by rw [hmt]; rfl)
  · intro h
    unfold BuildBoardPolygonOutlines
    rw [if_pos h]
  · intro o ho
    simp only [fallbackPoly, List.mem_singleton] at ho
    subst ho
    exact ⟨rfl, rfl⟩

/-- A board with no edge graphics and a 5 x 7 bounding box. -/
def exBoard : Board := ⟨[], ⟨⟨0, 0⟩, ⟨5, 7⟩⟩, ⟨⟨0, 0⟩, ⟨5, 7⟩⟩⟩

theorem c6_board_outlines_never_empty_witness :
    BuildBoardPolygonOutlines extStd 0 exBoard ⟨[]⟩ =
      ((boardPre extStd 0 exBoard ⟨[]⟩).1, fallbackPoly exBoard) :=
  (c6_board_outlines_never_empty extStd 0 exBoard ⟨[]⟩).2.1 (Or.inl (by decide))

/-- A polygon primitive with the given stored contour points and parent. -/
def mkPoly (pts : List Pt) (m : Option PcbModule) : DSeg :=
  ⟨.polygonS, ⟨0, 0⟩, ⟨0, 0⟩, ⟨0, 0⟩, ⟨0, 0⟩, ⟨0, 0⟩, 0, ⟨0, 0⟩, [], [], pts, pts, m⟩

/-- A segment far to the right, used as `aSegList[0]`. -/
def exHeadSeg : DSeg := mkSeg ⟨100, 0⟩ ⟨100, 10⟩

/-- The same segment carried by a module placed at `(500, 0)`. -/
def exHeadSegMoved : DSeg :=
  { exHeadSeg with parentModule := some ⟨0, ⟨500, 0⟩⟩ }

/-- A one-point polygon at the origin with no parent module. -/
def exPolyOwnNone : DSeg := mkPoly [⟨0, 0⟩] none

/-- The same polygon carried by a module placed at `(500, 0)`. -/
def exPolyOwnMoved : DSeg := mkPoly [⟨0, 0⟩] (some ⟨0, ⟨500, 0⟩⟩)

/-- Claim C9: in the leftmost-point scan a polygon's points are placed with
the parent module of `aSegList[0]`, not the polygon's own, while outline
and hole emission use the polygon's own parent.  Concretely: moving the
examined polygon's own parent module does not change the scan's choice of
starting index, moving `aSegList[0]`'s parent module does, and emission
applies the polygon's own placement, so scan and emission disagree exactly
when the two parents differ. -/
theorem c9_scan_uses_first_segments_parent (E : Externals) (head g : DSeg) (tol : Nat)
    (hpoly : g.shape = .polygonS) :
    scanCandidatePts E head tol g = g.polyPtsAll.map (placePolyPt E head.parentModule) ∧
    emitPolyPts E g g.polyPts0 = g.polyPts0.map (placePolyPt E g.parentModule) ∧
    emitPolyPts E g g.polyPtsAll = g.polyPtsAll.map (placePolyPt E g.parentModule) ∧
    leftmostIndex extStd 0 [exHeadSeg, exPolyOwnNone] = 1 ∧
    leftmostIndex extStd 0 [exHeadSeg, exPolyOwnMoved] = 1 ∧
    leftmostIndex extStd 0 [exHeadSegMoved, exPolyOwnNone] = 0 ∧
    emitPolyPts extStd exPolyOwnNone exPolyOwnNone.polyPtsAll ≠
      emitPolyPts extStd exPolyOwnMoved exPolyOwnMoved.polyPtsAll := by
  refine ⟨?_, rfl, rfl, by decide, by decide, by decide, by decide⟩
  unfold scanCandidatePts
  rw [hpoly]

theorem c9_scan_uses_first_segments_parent_witness :
    scanCandidatePts extStd exHeadSeg 0 exPolyOwnMoved =
      exPolyOwnMoved.polyPtsAll.map (placePolyPt extStd exHeadSeg.parentModule) :=
  (c9_scan_uses_first_segments_parent extStd exHeadSeg exPolyOwnMoved 0 (by decide)).1
